import Mathlib

/-!
# Verification of BinToCSV's binary decoder and CSV serializer (`parsebin.cpp`)

This file is a shallow embedding of the record-extraction and serialization
core of the BinToCSV repository (`parseBinFile`, its helpers
`parseHexAsFloatLittleEndian`, `parseDateTimeFromTwoHex`,
`swapBigEndianToHost`, and the sort/dedup/swap pipeline of `writeCsv`),
together with theorems settling the specification's claims about it.

Modelling conventions:

* A C++ `std::string` (a byte string) is modelled as `List Nat`, each element
  an ASCII code (`'0'` = 48, `'9'` = 57, `'A'` = 65, `'F'` = 70, `'a'` = 97,
  `'f'` = 102, `'/'` = 47, `':'` = 58).
* The input file's contents are a `List Nat` of bytes; `fread` returning a
  short count at end of file is modelled by comparing the remaining length
  against the block size.  `fseek(fp, 0xC0, SEEK_SET)` on a regular file
  succeeds even when the file is shorter than 192 bytes (ISO C / POSIX: a
  `SEEK_SET` seek to any non-negative offset on a seekable file succeeds and
  the subsequent read simply comes up short), so the preamble skip is
  `List.drop 192` and never fails on a file (as opposed to a non-seekable
  stream, which is outside this model).
* 32-bit unsigned arithmetic (`uint32_t`) is `Nat` with explicit `% 2 ^ 32`.
* `parseHexAsFloatLittleEndian` stores the byte-swapped 32-bit word.  The
  C++ code additionally reinterprets this bit pattern as an IEEE-754
  `float` and rounds it to two decimals; that step is floating-point and is
  not part of this embedding (the stored `Nat` stands for the stored float's
  pre-rounding bit pattern).
* C++ exceptions become `Except`; the `catch(...)` around the timestamp
  parse in `parseBinFile` becomes a `match` that turns an `Except.error`
  into "skip this group".
* The decoding loop of `parseBinFile` consumes at least 128 bytes per
  iteration; it is written below with an explicit fuel argument (structural
  recursion on the fuel) so that it evaluates by kernel reduction, and
  `parseBinFile` instantiates the fuel with the file length, which is always
  sufficient (each iteration consumes more bytes than fuel units).
-/

/-- Errors thrown by `parseDateTimeFromTwoHex` (all caught by the
`catch(...)` in `parseBinFile`, which skips the offending group). -/
inductive TsError where
  | lenErr      -- "时间字段长度不够"
  | notDecimal  -- "非十进制数字"
  | yearRange   -- "年份超范围"
  | monthRange  -- "月份无效"
  | dayRange    -- "日期无效"
  | hourRange   -- "小时无效"
  | minuteRange -- "分钟无效"
  | secondRange -- "秒无效"
  deriving Repr, DecidableEq

/-- Errors thrown by `parseHexAsFloatLittleEndian` (NOT caught inside
`parseBinFile`; they abort the whole decode). -/
inductive FloatError where
  | tooShort   -- "无效的hex字符串(长度不足8)"
  | badHexChar -- "无效的hex字符"
  deriving Repr, DecidableEq

/-- The `Record` struct: one measurement sample.  `dateStr`/`timeStr` are
byte strings; `floatValues` holds, for each measurement field, the
byte-swapped 32-bit word produced by `parseHexAsFloatLittleEndian`
(the float reinterpretation / 2-decimal rounding of that bit pattern is
floating-point and outside the embedding). -/
structure Record where
  year : Nat
  month : Nat
  day : Nat
  hour : Nat
  minute : Nat
  second : Nat
  dateStr : List Nat := []
  timeStr : List Nat := []
  floatValues : List Nat := []
  deriving Repr, DecidableEq

/-- `swapBigEndianToHost`: reverse the four bytes of a 32-bit word
(`((v & 0xFF000000) >> 24) | ((v & 0x00FF0000) >> 8) |
((v & 0x0000FF00) << 8) | ((v & 0x000000FF) << 24)`). -/
def swapBigEndianToHost (v : Nat) : Nat :=
  (v / 2 ^ 24 % 256) + (v / 2 ^ 16 % 256) * 2 ^ 8 +
    (v / 2 ^ 8 % 256) * 2 ^ 16 + (v % 256) * 2 ^ 24

/-- One character of the hex-digit scan in `parseHexAsFloatLittleEndian`:
`'0'..'9'`, `'A'..'F'` and `'a'..'f'` are accepted. -/
def hexDigitVal (c : Nat) : Option Nat :=
  if 48 ≤ c ∧ c ≤ 57 then some (c - 48)        -- '0'..'9'
  else if 65 ≤ c ∧ c ≤ 70 then some (c - 65 + 10)  -- 'A'..'F'
  else if 97 ≤ c ∧ c ≤ 102 then some (c - 97 + 10) -- 'a'..'f'
  else none

/-- The accumulation loop `val <<= 4; val |= digit` over every character of
the string (`val` is `uint32_t`, so the shift wraps modulo `2 ^ 32`; the
`|=` is addition because the low nibble is zero after the shift). -/
def parseHexWordLoop (val : Nat) : List Nat → Except FloatError Nat
  | [] => .ok val
  | c :: cs =>
    match hexDigitVal c with
    | some d => parseHexWordLoop (val * 16 % 2 ^ 32 + d) cs
    | none => .error .badHexChar

/-- The pre-swap 32-bit word read by `parseHexAsFloatLittleEndian`:
length check, then the digit loop. -/
def parseHexWord (hex8 : List Nat) : Except FloatError Nat :=
  if hex8.length < 8 then .error .tooShort
  else parseHexWordLoop 0 hex8

/-- `parseHexAsFloatLittleEndian`, up to the float reinterpretation: the
pre-swap word is byte-swapped and the resulting bit pattern is stored. -/
def parseHexAsFloatLittleEndian (hex8 : List Nat) : Except FloatError Nat :=
  (parseHexWord hex8).map swapBigEndianToHost

/-- `decToInt`: extract the two-digit decimal number at position `pos`
(both characters must be `'0'..'9'`). -/
def decToInt (s : List Nat) (pos : Nat) : Except TsError Nat :=
  let c1 := s.getD pos 0
  let c2 := s.getD (pos + 1) 0
  if c1 < 48 ∨ 57 < c1 ∨ c2 < 48 ∨ 57 < c2 then .error .notDecimal
  else .ok ((c1 - 48) * 10 + (c2 - 48))

/-- Decimal rendering of a nonnegative integer (`operator<<(int)`), as a
list of ASCII digit codes.  Written with fuel (one unit per digit, `n + 1`
is always enough) so it is structurally recursive. -/
def decDigitsCore : Nat → Nat → List Nat → List Nat
  | 0, _, acc => acc
  | fuel + 1, n, acc =>
    if n < 10 then (48 + n) :: acc
    else decDigitsCore fuel (n / 10) ((48 + n % 10) :: acc)

/-- Decimal rendering of `n`, most significant digit first. -/
def decDigits (n : Nat) : List Nat :=
  decDigitsCore (n + 1) n []

/-- `std::setw(2) << std::setfill('0') << n`: the decimal rendering of `n`,
left-padded with `'0'` to at least two characters. -/
def pad2 (n : Nat) : List Nat :=
  if n < 10 then 48 :: decDigits n else decDigits n

/-- `parseDateTimeFromTwoHex`: decode `hex1 = "YYMMDDhh"`, `hex2 =
"mmssxxxx"` as decimal digit pairs, validate ranges, and build the record
with its formatted `dateStr` (`year << "/" << setw(2) << MM << "/" <<
setw(2) << DD`) and `timeStr`. -/
def parseDateTimeFromTwoHex (hex1 hex2 : List Nat) : Except TsError Record :=
  if hex1.length < 8 ∨ hex2.length < 8 then .error .lenErr
  else
    match decToInt hex1 0 with
    | .error e => .error e
    | .ok YY =>
    match decToInt hex1 2 with
    | .error e => .error e
    | .ok MM =>
    match decToInt hex1 4 with
    | .error e => .error e
    | .ok DD =>
    match decToInt hex1 6 with
    | .error e => .error e
    | .ok hh =>
    match decToInt hex2 0 with
    | .error e => .error e
    | .ok mm =>
    match decToInt hex2 2 with
    | .error e => .error e
    | .ok ss =>
    let year := 2000 + YY
    if year < 2000 ∨ 2100 < year then .error .yearRange
    else if MM < 1 ∨ 12 < MM then .error .monthRange
    else if DD < 1 ∨ 31 < DD then .error .dayRange
    else if 23 < hh then .error .hourRange
    else if 59 < mm then .error .minuteRange
    else if 59 < ss then .error .secondRange
    else .ok
      { year := year, month := MM, day := DD,
        hour := hh, minute := mm, second := ss
        dateStr := decDigits year ++ 47 :: pad2 MM ++ 47 :: pad2 DD
        timeStr := pad2 hh ++ 58 :: pad2 mm ++ 58 :: pad2 ss }

/-- One output digit of `snprintf("%08X", v)`: uppercase hex. -/
def hexCharUpper (d : Nat) : Nat :=
  if d < 10 then 48 + d else 65 + (d - 10)

/-- `snprintf(buf, sizeof(buf), "%08X", v)` for a `uint32_t` value: exactly
eight zero-padded uppercase hex digits (a `uint32_t` never needs more). -/
def toHex8 (v : Nat) : List Nat :=
  [hexCharUpper (v / 16 ^ 7 % 16), hexCharUpper (v / 16 ^ 6 % 16),
   hexCharUpper (v / 16 ^ 5 % 16), hexCharUpper (v / 16 ^ 4 % 16),
   hexCharUpper (v / 16 ^ 3 % 16), hexCharUpper (v / 16 ^ 2 % 16),
   hexCharUpper (v / 16 % 16), hexCharUpper (v % 16)]

/-- The word-assembly loop of `parseBinFile`: every 4 bytes become one
big-endian 32-bit word (`buffer[i]` has type `unsigned char`, hence the
`% 256`). -/
def wordsOfBytes : List Nat → List Nat
  | b0 :: b1 :: b2 :: b3 :: rest =>
    ((b0 % 256) * 2 ^ 24 + (b1 % 256) * 2 ^ 16 + (b2 % 256) * 2 ^ 8 + b3 % 256)
      :: wordsOfBytes rest
  | _ => []

/-- The grouping loop `for (i = 0; i + 16 <= hexVals.size(); i += 16)`:
consecutive 16-element chunks, discarding a trailing partial chunk. -/
def chunks16 {α : Type} : List α → List (List α)
  | a1 :: a2 :: a3 :: a4 :: a5 :: a6 :: a7 :: a8 ::
    a9 :: a10 :: a11 :: a12 :: a13 :: a14 :: a15 :: a16 :: rest =>
    [a1, a2, a3, a4, a5, a6, a7, a8, a9, a10, a11, a12, a13, a14, a15, a16]
      :: chunks16 rest
  | _ => []

/-- The measurement-field loop `for (idx = 2; idx < group.size(); ++idx)
fvals.push_back(parseHexAsFloatLittleEndian(group[idx]))`, applied to
`group.drop 2`: the first `FloatError` escapes. -/
def parseFloats : List (List Nat) → Except FloatError (List Nat)
  | [] => .ok []
  | s :: rest =>
    match parseHexAsFloatLittleEndian s with
    | .error e => .error e
    | .ok v =>
      match parseFloats rest with
      | .error e => .error e
      | .ok vs => .ok (v :: vs)

/-- The per-group body of `parseBinFile`'s grouping loop: drop the group
marker (`group.erase(group.begin())`), skip the group if fewer than 2
elements remain, parse the timestamp (any `TsError` is caught and skips the
group), skip if fewer than 15 elements remain, then decode the 13
measurement fields — whose `FloatError`s are NOT caught and escape. -/
def decodeGroup (g : List (List Nat)) : Except FloatError (Option Record) :=
  let group := g.drop 1
  if group.length < 2 then .ok none
  else
    match parseDateTimeFromTwoHex (group.getD 0 []) (group.getD 1 []) with
    | .error _ => .ok none
    | .ok rec =>
      if group.length < 15 then .ok none
      else
        match parseFloats (group.drop 2) with
        | .error e => .error e
        | .ok fvals => .ok (some { rec with floatValues := fvals })

/-- The grouping loop over a list of groups, collecting the decoded records
in order; a `FloatError` aborts everything. -/
def decodeGroups : List (List (List Nat)) → Except FloatError (List Record)
  | [] => .ok []
  | g :: gs =>
    match decodeGroup g with
    | .error e => .error e
    | .ok r? =>
      match decodeGroups gs with
      | .error e => .error e
      | .ok rest =>
        match r? with
        | some r => .ok (r :: rest)
        | none => .ok rest

/-- The per-block word/hex pipeline of `parseBinFile`: assemble big-endian
words from the block's bytes, drop word 0 of the first block, and render
every kept word as 8 uppercase hex digits. -/
def blockHex (first : Bool) (buffer : List Nat) : List (List Nat) :=
  let values := wordsOfBytes buffer
  let mainVals := if first then values.drop 1 else values
  mainVals.map toHex8

/-- The block-reading loop of `parseBinFile`: the first block is 132 bytes,
later blocks 128; a short read ends the loop.  `fuel` only bounds the
number of iterations (each iteration consumes at least 128 bytes, so any
`fuel ≥ data.length` behaves like the unbounded loop). -/
def parseLoop : Nat → Bool → List Nat → Except FloatError (List Record)
  | 0, _, _ => .ok []
  | fuel + 1, first, data =>
    let blockSize := if first then 132 else 128
    if data.length < blockSize then .ok []
    else
      match decodeGroups (chunks16 (blockHex first (data.take blockSize))) with
      | .error e => .error e
      | .ok recs =>
        match parseLoop fuel false (data.drop blockSize) with
        | .error e => .error e
        | .ok rest => .ok (recs ++ rest)

/-- `parseBinFile` on the contents of an already-opened regular file: skip
the 192-byte preamble (see the module comment on `fseek`), then run the
block loop. -/
def parseBinFile (data : List Nat) : Except FloatError (List Record) :=
  parseLoop data.length true (data.drop 192)

/-! ## The serializer core of `writeCsv` (sort, dedup, field swap) -/

/-- The comparator passed to `std::sort` in `writeCsv`: strict
lexicographic order on (year, month, day, hour, minute, second). -/
def recLt (a b : Record) : Bool :=
  if a.year ≠ b.year then a.year < b.year
  else if a.month ≠ b.month then a.month < b.month
  else if a.day ≠ b.day then a.day < b.day
  else if a.hour ≠ b.hour then a.hour < b.hour
  else if a.minute ≠ b.minute then a.minute < b.minute
  else a.second < b.second

/-- Insert a record into an already sorted list, before the first element
it compares strictly below.  `sortRecs` built on this produces a sorted
permutation of the input, which is all `std::sort` guarantees for the
comparator `recLt` (ties are broken arbitrarily by `std::sort`; the choice
made here is a deterministic refinement of it). -/
def insertRec (x : Record) : List Record → List Record
  | [] => [x]
  | y :: ys => if recLt x y then x :: y :: ys else y :: insertRec x ys

/-- The `std::sort` call of `writeCsv`, as insertion sort. -/
def sortRecs : List Record → List Record
  | [] => []
  | x :: xs => insertRec x (sortRecs xs)

/-- Negation of the dedup condition in `writeCsv`: true iff the two records
agree on all six timestamp fields (`writeCsv` keeps a record iff this is
false against the last kept record). -/
def sameKey (a b : Record) : Bool :=
  a.year == b.year && a.month == b.month && a.day == b.day &&
    a.hour == b.hour && a.minute == b.minute && a.second == b.second

/-- The dedup scan of `writeCsv` after its first kept record: `last` is the
most recently kept record; a record whose key equals `last`'s is dropped. -/
def dedupLoop (last : Record) : List Record → List Record
  | [] => []
  | r :: rs => if sameKey r last then dedupLoop last rs else r :: dedupLoop r rs

/-- The full dedup scan of `writeCsv` (`last` starts as null, so the first
record is always kept). -/
def uniqueRows : List Record → List Record
  | [] => []
  | r :: rs => r :: dedupLoop r rs

/-- The `std::swap(r.floatValues[11], r.floatValues[12])` applied by
`writeCsv` to each surviving record that has exactly 13 float values. -/
def swapTail (r : Record) : Record :=
  if r.floatValues.length = 13 then
    let v := r.floatValues
    { r with floatValues := (v.set 11 (v.getD 12 0)).set 12 (v.getD 11 0) }
  else r

/-- The data rows of the CSV emitted by `writeCsv`, as records: sort, dedup,
then swap positions 11/12 of each surviving record's values. -/
def csvRecords (rowsIn : List Record) : List Record :=
  (uniqueRows (sortRecs rowsIn)).map swapTail

/-! ## Spec-side definitions

These follow the specification's words, for comparison against the
source-derived functions above. -/

/-- Spec-side: grouping over the cross-block concatenation — the list of
all kept hex words of the whole file, blocks concatenated before any
grouping.  (Same block loop as `parseLoop`, collecting hex words only.) -/
def keptHexLoop : Nat → Bool → List Nat → List (List Nat)
  | 0, _, _ => []
  | fuel + 1, first, data =>
    let blockSize := if first then 132 else 128
    if data.length < blockSize then []
    else
      blockHex first (data.take blockSize) ++
        keptHexLoop fuel false (data.drop blockSize)

/-- All kept hex words of a file, in order, across all block reads. -/
def keptHex (data : List Nat) : List (List Nat) :=
  keptHexLoop data.length true (data.drop 192)

/-- The 16-word groups exactly as the code forms them: per block read,
group index restarting at each block, trailing partial group discarded. -/
def perBlockGroupsLoop : Nat → Bool → List Nat → List (List (List Nat))
  | 0, _, _ => []
  | fuel + 1, first, data =>
    let blockSize := if first then 132 else 128
    if data.length < blockSize then []
    else
      chunks16 (blockHex first (data.take blockSize)) ++
        perBlockGroupsLoop fuel false (data.drop blockSize)

/-- The sequence of 16-word groups the decoder processes, per-block. -/
def perBlockGroups (data : List Nat) : List (List (List Nat)) :=
  perBlockGroupsLoop data.length true (data.drop 192)

/-- Spec-side: an uppercase hexadecimal digit (`0`–`9`, `A`–`F`). -/
def isUpperHexDigit (c : Nat) : Prop :=
  (48 ≤ c ∧ c ≤ 57) ∨ (65 ≤ c ∧ c ≤ 70)

instance (c : Nat) : Decidable (isUpperHexDigit c) := by
  unfold isUpperHexDigit; infer_instance

/-- Spec-side: a decimal digit character's value. -/
def digitVal? (c : Nat) : Option Nat :=
  if 48 ≤ c ∧ c ≤ 57 then some (c - 48) else none

/-- Spec-side: re-parse a zero-padded "YYYY/MM/DD" rendering back into
numeric (year, month, day). -/
def reparseDate : List Nat → Option (Nat × Nat × Nat)
  | [y1, y2, y3, y4, s1, m1, m2, s2, d1, d2] =>
    match digitVal? y1, digitVal? y2, digitVal? y3, digitVal? y4,
        digitVal? m1, digitVal? m2, digitVal? d1, digitVal? d2 with
    | some a, some b, some c, some d, some e, some f, some g, some h =>
      if s1 = 47 ∧ s2 = 47 then
        some (a * 1000 + b * 100 + c * 10 + d, e * 10 + f, g * 10 + h)
      else none
    | _, _, _, _, _, _, _, _ => none
  | _ => none

/-- Spec-side: re-parse a zero-padded "hh:mm:ss" rendering back into
numeric (hour, minute, second). -/
def reparseTime : List Nat → Option (Nat × Nat × Nat)
  | [h1, h2, c1, m1, m2, c2, s1, s2] =>
    match digitVal? h1, digitVal? h2, digitVal? m1, digitVal? m2,
        digitVal? s1, digitVal? s2 with
    | some a, some b, some c, some d, some e, some f =>
      if c1 = 58 ∧ c2 = 58 then
        some (a * 10 + b, c * 10 + d, e * 10 + f)
      else none
    | _, _, _, _, _, _ => none
  | _ => none

/-- Spec-side: the zero-padded two-digit decimal rendering of `n < 100`. -/
def digit2 (n : Nat) : List Nat :=
  [48 + n / 10 % 10, 48 + n % 10]

/-- Spec-side: the zero-padded four-digit decimal rendering of
`n < 10000`. -/
def digit4 (n : Nat) : List Nat :=
  [48 + n / 1000 % 10, 48 + n / 100 % 10, 48 + n / 10 % 10, 48 + n % 10]

/-- Spec-side: the construction invariant claimed of every decoded
`Record`: ranges valid, exactly 13 measurement values, and the date/time
strings are the zero-padded renderings of the numeric fields. -/
def validRecord (r : Record) : Prop :=
  2000 ≤ r.year ∧ r.year ≤ 2100 ∧
    1 ≤ r.month ∧ r.month ≤ 12 ∧ 1 ≤ r.day ∧ r.day ≤ 31 ∧
    r.hour ≤ 23 ∧ r.minute ≤ 59 ∧ r.second ≤ 59 ∧
    r.floatValues.length = 13 ∧
    r.dateStr = digit4 r.year ++ 47 :: digit2 r.month ++ 47 :: digit2 r.day ∧
    r.timeStr = digit2 r.hour ++ 58 :: digit2 r.minute ++ 58 :: digit2 r.second

/-- Spec-side: lexicographic "non-decreasing" order on the 6-tuple
(year, month, day, hour, minute, second). -/
def tupleLe (a b : Record) : Prop :=
  a.year < b.year ∨ (a.year = b.year ∧
    (a.month < b.month ∨ (a.month = b.month ∧
      (a.day < b.day ∨ (a.day = b.day ∧
        (a.hour < b.hour ∨ (a.hour = b.hour ∧
          (a.minute < b.minute ∨ (a.minute = b.minute ∧
            a.second ≤ b.second)))))))))


/-! ## Concrete test vectors (used by the witness theorems) -/

def tsWordGood1 : Nat := 0x25011013
def tsWordGood2 : Nat := 0x30450000

/-- A 16-string group that decodes to a record (marker, "25011013",
"30450000", thirteen float words). -/
def goodGroup : List (List Nat) :=
  toHex8 0 :: toHex8 tsWordGood1 :: toHex8 tsWordGood2 ::
    List.replicate 13 (toHex8 0x41200000)

/-- A 16-string group whose second hour digit is invalid ("25011O..": the
word renders with hex letters), so the timestamp parse fails. -/
def badTsGroup : List (List Nat) :=
  toHex8 0 :: toHex8 0xAB011013 :: toHex8 tsWordGood2 ::
    List.replicate 13 (toHex8 0)

/-- A 16-string group with a valid timestamp but a malformed (too short)
measurement hex string in the first value field. -/
def badFloatGroup : List (List Nat) :=
  toHex8 0 :: toHex8 tsWordGood1 :: toHex8 tsWordGood2 ::
    [48] :: List.replicate 12 (toHex8 0)

def wordBytes (n : Nat) : List Nat :=
  [n / 2 ^ 24 % 256, n / 2 ^ 16 % 256, n / 2 ^ 8 % 256, n % 256]

/-- A crafted input file: 192-byte preamble, then one 132-byte block whose
first group decodes to a record and whose second group has a corrupt
timestamp. -/
def fileBytes : List Nat :=
  List.replicate 192 0 ++ wordBytes 0xDEADBEEF ++
    (wordBytes 0 ++ wordBytes 0x25011013 ++ wordBytes 0x30450000 ++
      (List.replicate 13 (wordBytes 0x41200000)).flatten) ++
    (wordBytes 0 ++ wordBytes 0xABCDEF01 ++ wordBytes 0 ++
      (List.replicate 13 (wordBytes 0)).flatten)

/-- The single record decoded from `fileBytes`:
2025/01/10 13:30:45, all 13 stored words 0x00002041. -/
def cRec : Record :=
  { year := 2025, month := 1, day := 10, hour := 13, minute := 30, second := 45
    dateStr := [50, 48, 50, 53, 47, 48, 49, 47, 49, 48]
    timeStr := [49, 51, 58, 51, 48, 58, 52, 53]
    floatValues := List.replicate 13 8257 }

def cRecTs : Record :=
  { year := 2025, month := 1, day := 10, hour := 13, minute := 30, second := 45
    dateStr := [50, 48, 50, 53, 47, 48, 49, 47, 49, 48]
    timeStr := [49, 51, 58, 51, 48, 58, 52, 53]
    floatValues := [] }

def cRecSwap : Record :=
  { year := 2024, month := 2, day := 3, hour := 4, minute := 5, second := 6
    floatValues := [0, 1, 2, 3, 4, 5, 6, 7, 8, 9, 10, 11, 12] }

def cDupA : Record :=
  { year := 2025, month := 1, day := 10, hour := 13, minute := 30, second := 45
    floatValues := [1] }

def cDupB : Record :=
  { year := 2025, month := 1, day := 10, hour := 13, minute := 30, second := 45
    floatValues := [2] }

/-! ## Helper lemmas -/

theorem parseLoop_nil (fuel : Nat) (first : Bool) : parseLoop fuel first [] = .ok [] := by
  cases fuel <;> cases first <;> simp [parseLoop]

theorem hexDigitVal_of_upper {c : Nat} (h : isUpperHexDigit c) :
    ∃ d, hexDigitVal c = some d ∧ d < 16 ∧ hexCharUpper d = c := by
  rcases h with ⟨h1, h2⟩ | ⟨h1, h2⟩
  · refine ⟨c - 48, ?_, by omega, ?_⟩
    · unfold hexDigitVal
      rw [if_pos ⟨h1, h2⟩]
    · unfold hexCharUpper
      rw [if_pos (by omega)]
      omega
  · refine ⟨c - 65 + 10, ?_, by omega, ?_⟩
    · unfold hexDigitVal
      rw [if_neg (by omega), if_pos ⟨h1, h2⟩]
    · unfold hexCharUpper
      rw [if_neg (by omega)]
      omega

/-- C3: the claim says a file shorter than 192 bytes fails with `IoError`.
On a regular file the 192-byte seek succeeds even past end of file and the
first (short) block read simply ends the loop, so `parseBinFile` instead
returns an empty record sequence and no error: the claim is a code bug
(the code's own error message "fseek失败或文件过小" documents the intent
to fail on a too-small file, but the check cannot fire for regular files). -/
theorem shortFile_ok (data : List Nat) (h : data.length < 192) :
    parseBinFile data = .ok [] := by
  have hd : data.drop 192 = [] := by
    apply List.drop_eq_nil_of_le; omega
  rw [parseBinFile, hd, parseLoop_nil]

/-- Witness for C3's theorem: a concrete 10-byte file decodes to the empty
record sequence instead of failing. -/
theorem shortFile_ok_witness : parseBinFile (List.replicate 10 0) = .ok [] :=
  shortFile_ok (List.replicate 10 0) (by simp)

/-- C7 (amended): for every 8-character hex string over the digits and the
UPPERCASE letters `A`–`F` (lowercase excluded — see the counterexample),
parsing it to its pre-swap 32-bit big-endian word and re-rendering that
word with `%08X` recovers the original string. -/
theorem hexRoundTrip (H : List Nat) (hlen : H.length = 8)
    (hup : ∀ c ∈ H, isUpperHexDigit c) :
    ∃ w, parseHexWord H = .ok w ∧ toHex8 w = H := by
  rcases H with _ | ⟨c0, H⟩; · simp at hlen
  rcases H with _ | ⟨c1, H⟩; · simp at hlen
  rcases H with _ | ⟨c2, H⟩; · simp at hlen
  rcases H with _ | ⟨c3, H⟩; · simp at hlen
  rcases H with _ | ⟨c4, H⟩; · simp at hlen
  rcases H with _ | ⟨c5, H⟩; · simp at hlen
  rcases H with _ | ⟨c6, H⟩; · simp at hlen
  rcases H with _ | ⟨c7, H⟩; · simp at hlen
  rcases H with _ | ⟨c8, H⟩
  · obtain ⟨d0, e0, l0, u0⟩ := hexDigitVal_of_upper (hup c0 (by simp))
    obtain ⟨d1, e1, l1, u1⟩ := hexDigitVal_of_upper (hup c1 (by simp))
    obtain ⟨d2, e2, l2, u2⟩ := hexDigitVal_of_upper (hup c2 (by simp))
    obtain ⟨d3, e3, l3, u3⟩ := hexDigitVal_of_upper (hup c3 (by simp))
    obtain ⟨d4, e4, l4, u4⟩ := hexDigitVal_of_upper (hup c4 (by simp))
    obtain ⟨d5, e5, l5, u5⟩ := hexDigitVal_of_upper (hup c5 (by simp))
    obtain ⟨d6, e6, l6, u6⟩ := hexDigitVal_of_upper (hup c6 (by simp))
    obtain ⟨d7, e7, l7, u7⟩ := hexDigitVal_of_upper (hup c7 (by simp))
    refine ⟨d0 * 16 ^ 7 + d1 * 16 ^ 6 + d2 * 16 ^ 5 + d3 * 16 ^ 4 +
      d4 * 16 ^ 3 + d5 * 16 ^ 2 + d6 * 16 + d7, ?_, ?_⟩
    · rw [parseHexWord, if_neg (by simp)]
      simp only [parseHexWordLoop, e0, e1, e2, e3, e4, e5, e6, e7]
      congr 1
      omega
    · have n0 : (d0 * 16 ^ 7 + d1 * 16 ^ 6 + d2 * 16 ^ 5 + d3 * 16 ^ 4 +
        d4 * 16 ^ 3 + d5 * 16 ^ 2 + d6 * 16 + d7) / 16 ^ 7 % 16 = d0 := by omega
      have n1 : (d0 * 16 ^ 7 + d1 * 16 ^ 6 + d2 * 16 ^ 5 + d3 * 16 ^ 4 +
        d4 * 16 ^ 3 + d5 * 16 ^ 2 + d6 * 16 + d7) / 16 ^ 6 % 16 = d1 := by omega
      have n2 : (d0 * 16 ^ 7 + d1 * 16 ^ 6 + d2 * 16 ^ 5 + d3 * 16 ^ 4 +
        d4 * 16 ^ 3 + d5 * 16 ^ 2 + d6 * 16 + d7) / 16 ^ 5 % 16 = d2 := by omega
      have n3 : (d0 * 16 ^ 7 + d1 * 16 ^ 6 + d2 * 16 ^ 5 + d3 * 16 ^ 4 +
        d4 * 16 ^ 3 + d5 * 16 ^ 2 + d6 * 16 + d7) / 16 ^ 4 % 16 = d3 := by omega
      have n4 : (d0 * 16 ^ 7 + d1 * 16 ^ 6 + d2 * 16 ^ 5 + d3 * 16 ^ 4 +
        d4 * 16 ^ 3 + d5 * 16 ^ 2 + d6 * 16 + d7) / 16 ^ 3 % 16 = d4 := by omega
      have n5 : (d0 * 16 ^ 7 + d1 * 16 ^ 6 + d2 * 16 ^ 5 + d3 * 16 ^ 4 +
        d4 * 16 ^ 3 + d5 * 16 ^ 2 + d6 * 16 + d7) / 16 ^ 2 % 16 = d5 := by omega
      have n6 : (d0 * 16 ^ 7 + d1 * 16 ^ 6 + d2 * 16 ^ 5 + d3 * 16 ^ 4 +
        d4 * 16 ^ 3 + d5 * 16 ^ 2 + d6 * 16 + d7) / 16 % 16 = d6 := by omega
      have n7 : (d0 * 16 ^ 7 + d1 * 16 ^ 6 + d2 * 16 ^ 5 + d3 * 16 ^ 4 +
        d4 * 16 ^ 3 + d5 * 16 ^ 2 + d6 * 16 + d7) % 16 = d7 := by omega
      rw [toHex8, n0, n1, n2, n3, n4, n5, n6, n7, u0, u1, u2, u3, u4, u5, u6, u7]
  · simp at hlen

/-- Witness for C7's amended theorem at the concrete string "41200000". -/
theorem hexRoundTrip_witness :
    ∃ w, parseHexWord [52, 49, 50, 48, 48, 48, 48, 48] = .ok w ∧
      toHex8 w = [52, 49, 50, 48, 48, 48, 48, 48] :=
  hexRoundTrip _ rfl (by decide)

/-- C7 as stated is false: the lowercase string "0000000a" is accepted by
the float decoder (pre-swap word 10), but re-rendering 10 with `%08X`
yields the uppercase "0000000A", not the original string. -/
theorem hexRoundTrip_counterexample :
    parseHexWord [48, 48, 48, 48, 48, 48, 48, 97] = .ok 10 ∧
      toHex8 10 ≠ [48, 48, 48, 48, 48, 48, 48, 97] :=
  ⟨rfl, by decide⟩

theorem hexDigitVal_hexCharUpper {d : Nat} (h : d < 16) :
    hexDigitVal (hexCharUpper d) = some d := by
  interval_cases d <;> decide

theorem parseHex_toHex8 (v : Nat) :
    ∃ w, parseHexAsFloatLittleEndian (toHex8 v) = .ok w := by
  have h0 := hexDigitVal_hexCharUpper (Nat.mod_lt (v / 16 ^ 7) (by norm_num))
  have h1 := hexDigitVal_hexCharUpper (Nat.mod_lt (v / 16 ^ 6) (by norm_num))
  have h2 := hexDigitVal_hexCharUpper (Nat.mod_lt (v / 16 ^ 5) (by norm_num))
  have h3 := hexDigitVal_hexCharUpper (Nat.mod_lt (v / 16 ^ 4) (by norm_num))
  have h4 := hexDigitVal_hexCharUpper (Nat.mod_lt (v / 16 ^ 3) (by norm_num))
  have h5 := hexDigitVal_hexCharUpper (Nat.mod_lt (v / 16 ^ 2) (by norm_num))
  have h6 := hexDigitVal_hexCharUpper (Nat.mod_lt (v / 16) (by norm_num))
  have h7 := hexDigitVal_hexCharUpper (Nat.mod_lt v (by norm_num))
  have hloop : ∃ u, parseHexWordLoop 0 (toHex8 v) = .ok u := by
    simp only [toHex8, parseHexWordLoop, h0, h1, h2, h3, h4, h5, h6, h7]
    exact ⟨_, rfl⟩
  obtain ⟨u, hu⟩ := hloop
  refine ⟨swapBigEndianToHost u, ?_⟩
  rw [parseHexAsFloatLittleEndian, parseHexWord, if_neg (by simp [toHex8]), hu]
  rfl

theorem chunks16_eq_nil {α : Type} (t : List α)
    (h : ∀ (a1 a2 a3 a4 a5 a6 a7 a8 a9 a10 a11 a12 a13 a14 a15 a16 : α) (rest : List α),
      t = a1 :: a2 :: a3 :: a4 :: a5 :: a6 :: a7 :: a8 :: a9 :: a10 :: a11 :: a12 :: a13 :: a14 :: a15 :: a16 :: rest → False) :
    chunks16 t = [] := by
  rw [chunks16.eq_def]
  split
  · rename_i a1 a2 a3 a4 a5 a6 a7 a8 a9 a10 a11 a12 a13 a14 a15 a16 rest
    exact absurd rfl (h a1 a2 a3 a4 a5 a6 a7 a8 a9 a10 a11 a12 a13 a14 a15 a16 rest)
  · rfl

theorem mem_chunks16 {α : Type} {l : List α} :
    ∀ g ∈ chunks16 l, ∀ a ∈ g, a ∈ l := by
  induction l using chunks16.induct with
  | case1 a1 a2 a3 a4 a5 a6 a7 a8 a9 a10 a11 a12 a13 a14 a15 a16 rest ih =>
    intro g hg a ha
    simp only [chunks16] at hg
    rcases List.mem_cons.mp hg with rfl | hg
    · exact List.mem_append_left rest ha
    · exact List.mem_append_right [a1, a2, a3, a4, a5, a6, a7, a8, a9, a10, a11, a12, a13, a14, a15, a16] (ih g hg a ha)
  | case2 t h =>
    intro g hg
    rw [chunks16_eq_nil t h] at hg
    simp at hg

theorem length_of_mem_chunks16 {α : Type} {l : List α} :
    ∀ g ∈ chunks16 l, g.length = 16 := by
  induction l using chunks16.induct with
  | case1 a1 a2 a3 a4 a5 a6 a7 a8 a9 a10 a11 a12 a13 a14 a15 a16 rest ih =>
    intro g hg
    simp only [chunks16] at hg
    rcases List.mem_cons.mp hg with rfl | hg
    · rfl
    · exact ih g hg
  | case2 t h =>
    intro g hg
    rw [chunks16_eq_nil t h] at hg
    simp at hg

theorem parseFloats_ok (l : List (List Nat)) (h : ∀ s ∈ l, ∃ v, s = toHex8 v) :
    ∃ vs, parseFloats l = .ok vs := by
  induction l with
  | nil => exact ⟨[], rfl⟩
  | cons s rest ih =>
    obtain ⟨v, rfl⟩ := h s (by simp)
    obtain ⟨w, hw⟩ := parseHex_toHex8 v
    obtain ⟨vs, hvs⟩ := ih (fun s hs => h s (by simp [hs]))
    exact ⟨w :: vs, by rw [parseFloats, hw, hvs]⟩

theorem decodeGroup_ok (g : List (List Nat)) (h : ∀ s ∈ g, ∃ v, s = toHex8 v) :
    ∃ r?, decodeGroup g = .ok r? := by
  rw [decodeGroup]
  split
  · exact ⟨none, rfl⟩
  · split
    · exact ⟨none, rfl⟩
    · split
      · exact ⟨none, rfl⟩
      · obtain ⟨vs, hvs⟩ := parseFloats_ok ((g.drop 1).drop 2)
          (fun s hs => h s (List.mem_of_mem_drop (List.mem_of_mem_drop hs)))
        rw [hvs]
        exact ⟨_, rfl⟩

theorem decodeGroups_ok (gs : List (List (List Nat)))
    (h : ∀ g ∈ gs, ∀ s ∈ g, ∃ v, s = toHex8 v) :
    ∃ rs, decodeGroups gs = .ok rs := by
  induction gs with
  | nil => exact ⟨[], rfl⟩
  | cons g rest ih =>
    obtain ⟨r?, hr⟩ := decodeGroup_ok g (h g (by simp))
    obtain ⟨rs, hrs⟩ := ih (fun g' hg' => h g' (by simp [hg']))
    cases r? with
    | none => exact ⟨rs, by rw [decodeGroups, hr, hrs]⟩
    | some r => exact ⟨r :: rs, by rw [decodeGroups, hr, hrs]⟩

theorem mem_blockHex {first : Bool} {buf : List Nat} {s : List Nat}
    (hs : s ∈ blockHex first buf) : ∃ v, s = toHex8 v := by
  rw [blockHex] at hs
  simp only [List.mem_map] at hs
  obtain ⟨v, _, rfl⟩ := hs
  exact ⟨v, rfl⟩

theorem parseLoop_ok (fuel : Nat) (first : Bool) (data : List Nat) :
    ∃ rs, parseLoop fuel first data = .ok rs := by
  induction fuel generalizing first data with
  | zero => exact ⟨[], rfl⟩
  | succ fuel ih =>
    rw [parseLoop]
    by_cases hlen : data.length < (if first = true then 132 else 128)
    · rw [if_pos hlen]
      exact ⟨[], rfl⟩
    · rw [if_neg hlen]
      obtain ⟨rs, hrs⟩ := decodeGroups_ok
        (chunks16 (blockHex first (data.take (if first = true then 132 else 128))))
        (fun g hg s hs => mem_blockHex (mem_chunks16 g hg s hs))
      obtain ⟨rest, hrest⟩ := ih false (data.drop (if first = true then 132 else 128))
      rw [hrs, hrest]
      exact ⟨rs ++ rest, rfl⟩

/-- C10: the measurement-float error path is unreachable inside decode:
every hex string the decoder builds is the `%08X` rendering of a 32-bit
word, which the float parser always accepts, so `parseBinFile` succeeds on
every input file and never aborts with a malformed-float error. -/
theorem parseBinFile_never_floatError (data : List Nat) :
    ∃ recs, parseBinFile data = .ok recs :=
  parseLoop_ok data.length true (data.drop 192)

theorem wordsOfBytes_length (l : List Nat) :
    (wordsOfBytes l).length = l.length / 4 := by
  induction l using wordsOfBytes.induct with
  | case1 b0 b1 b2 b3 rest ih =>
    simp only [wordsOfBytes, List.length_cons, ih]
    omega
  | case2 t h =>
    have ht : t.length < 4 := by
      rcases t with _ | ⟨b0, t⟩; · simp
      rcases t with _ | ⟨b1, t⟩; · simp
      rcases t with _ | ⟨b2, t⟩; · simp
      rcases t with _ | ⟨b3, t⟩; · simp
      exact absurd rfl (h b0 b1 b2 b3 t)
    have hnil : wordsOfBytes t = [] := by
      rw [wordsOfBytes.eq_def]
      split
      · rename_i b0 b1 b2 b3 rest
        exact absurd rfl (h b0 b1 b2 b3 rest)
      · rfl
    rw [hnil]
    simp only [List.length_nil]
    omega

theorem blockHex_length (first : Bool) (buf : List Nat)
    (hbuf : buf.length = if first = true then 132 else 128) :
    (blockHex first buf).length = 32 := by
  cases first <;>
    simp_all [blockHex, wordsOfBytes_length]

theorem chunks16_cons16 {α : Type} (a t : List α) (h : a.length = 16) :
    chunks16 (a ++ t) = a :: chunks16 t := by
  rcases a with _ | ⟨a1, a⟩; · simp at h
  rcases a with _ | ⟨a2, a⟩; · simp at h
  rcases a with _ | ⟨a3, a⟩; · simp at h
  rcases a with _ | ⟨a4, a⟩; · simp at h
  rcases a with _ | ⟨a5, a⟩; · simp at h
  rcases a with _ | ⟨a6, a⟩; · simp at h
  rcases a with _ | ⟨a7, a⟩; · simp at h
  rcases a with _ | ⟨a8, a⟩; · simp at h
  rcases a with _ | ⟨a9, a⟩; · simp at h
  rcases a with _ | ⟨a10, a⟩; · simp at h
  rcases a with _ | ⟨a11, a⟩; · simp at h
  rcases a with _ | ⟨a12, a⟩; · simp at h
  rcases a with _ | ⟨a13, a⟩; · simp at h
  rcases a with _ | ⟨a14, a⟩; · simp at h
  rcases a with _ | ⟨a15, a⟩; · simp at h
  rcases a with _ | ⟨a16, a⟩; · simp at h
  rcases a with _ | ⟨a17, a⟩
  · rfl
  · simp at h

theorem chunks16_append32 {α : Type} (l t : List α) (h : l.length = 32) :
    chunks16 (l ++ t) = chunks16 l ++ chunks16 t := by
  have h1 : (l.take 16).length = 16 := by simp [h]
  have h2 : (l.drop 16).length = 16 := by simp [h]
  have hsplit : l = l.take 16 ++ l.drop 16 := (List.take_append_drop 16 l).symm
  rw [hsplit, List.append_assoc, chunks16_cons16 _ _ h1, chunks16_cons16 _ _ h2,
    chunks16_cons16 _ _ h1]
  have : chunks16 (l.drop 16) = [l.drop 16] := by
    have := chunks16_cons16 (l.drop 16) [] h2
    simpa using this
  rw [this]
  rfl

theorem decodeGroups_append (l1 l2 : List (List (List Nat))) :
    decodeGroups (l1 ++ l2) =
      match decodeGroups l1 with
      | .error e => .error e
      | .ok rs1 =>
        match decodeGroups l2 with
        | .error e => .error e
        | .ok rs2 => .ok (rs1 ++ rs2) := by
  induction l1 with
  | nil =>
    simp only [List.nil_append, decodeGroups]
    cases decodeGroups l2 <;> rfl
  | cons g l1 ih =>
    rw [List.cons_append, decodeGroups, decodeGroups, ih]
    cases decodeGroup g with
    | error e => rfl
    | ok r? =>
      cases decodeGroups l1 with
      | error e => rfl
      | ok rs1 =>
        cases decodeGroups l2 with
        | error e => cases r? <;> rfl
        | ok rs2 => cases r? <;> simp

theorem parseLoop_spec (fuel : Nat) (first : Bool) (data : List Nat) :
    perBlockGroupsLoop fuel first data = chunks16 (keptHexLoop fuel first data) ∧
      parseLoop fuel first data = decodeGroups (perBlockGroupsLoop fuel first data) := by
  induction fuel generalizing first data with
  | zero => exact ⟨rfl, rfl⟩
  | succ fuel ih =>
    rw [parseLoop, perBlockGroupsLoop, keptHexLoop]
    by_cases hlen : data.length < (if first = true then 132 else 128)
    · rw [if_pos hlen, if_pos hlen, if_pos hlen]
      exact ⟨rfl, rfl⟩
    · rw [if_neg hlen, if_neg hlen, if_neg hlen]
      obtain ⟨ihA, ihB⟩ := ih false (data.drop (if first = true then 132 else 128))
      have hbh : (blockHex first (data.take (if first = true then 132 else 128))).length = 32 := by
        apply blockHex_length
        rw [List.length_take]
        cases first <;> simp at hlen ⊢ <;> omega
      constructor
      · rw [chunks16_append32 _ _ hbh, ihA]
      · rw [decodeGroups_append, ← ihB]

/-- C1: the sequence of 16-word groups the decoder processes per block
(group index restarting at each block read, trailing partial group
discarded) equals the groups obtained by chunking the concatenation of all
kept hex words of the whole file into consecutive 16-word groups, and the
decoded records coincide as well.  (Each processed block contributes
exactly 32 kept words, a multiple of 16, so the two groupings agree.) -/
theorem groupsSpanBlocks (data : List Nat) :
    perBlockGroups data = chunks16 (keptHex data) ∧
      parseBinFile data = decodeGroups (chunks16 (keptHex data)) := by
  obtain ⟨hA, hB⟩ := parseLoop_spec data.length true (data.drop 192)
  refine ⟨hA, ?_⟩
  rw [parseBinFile, hB, hA]
  rfl

theorem decodeGroup_skip (g : List (List Nat)) (te : TsError)
    (hts : parseDateTimeFromTwoHex ((g.drop 1).getD 0 []) ((g.drop 1).getD 1 []) =
      .error te) :
    decodeGroup g = .ok none := by
  rw [decodeGroup]
  split
  · rfl
  · rw [hts]

/-- C2: decoding errors are handled asymmetrically.  A group whose
timestamp fields fail to parse is skipped and the remaining groups still
produce their records (the result equals decoding the list without that
group); a malformed hex string in a measurement field of a group with a
valid timestamp aborts the entire decode with that error, regardless of
how many groups follow. -/
theorem errorHandlingAsymmetry (l1 l2 : List (List (List Nat))) (g : List (List Nat)) :
    (∀ te, parseDateTimeFromTwoHex ((g.drop 1).getD 0 []) ((g.drop 1).getD 1 []) =
        .error te →
      decodeGroups (l1 ++ g :: l2) = decodeGroups (l1 ++ l2)) ∧
    (∀ e rs rec, decodeGroups l1 = .ok rs →
      parseDateTimeFromTwoHex ((g.drop 1).getD 0 []) ((g.drop 1).getD 1 []) = .ok rec →
      15 ≤ (g.drop 1).length →
      parseFloats ((g.drop 1).drop 2) = .error e →
      decodeGroups (l1 ++ g :: l2) = .error e) := by
  constructor
  · intro te hts
    rw [decodeGroups_append, decodeGroups_append]
    cases decodeGroups l1 with
    | error e => rfl
    | ok rs1 =>
      rw [decodeGroups, decodeGroup_skip g te hts]
      cases decodeGroups l2 <;> rfl
  · intro e rs rec hl1 hts hlen hfl
    have hg : decodeGroup g = .error e := by
      simp only [decodeGroup, hts, hfl]
      rw [if_neg (by omega), if_neg (by omega)]
    rw [decodeGroups_append, hl1, decodeGroups, hg]

/-- Witness for C2 on concrete groups: a corrupt-timestamp group is
skipped while its neighbours decode; a corrupt-measurement group aborts. -/
theorem errorHandlingAsymmetry_witness :
    (decodeGroups ([goodGroup] ++ badTsGroup :: [goodGroup]) =
      decodeGroups ([goodGroup] ++ [goodGroup])) ∧
    decodeGroups ([goodGroup] ++ badFloatGroup :: [goodGroup]) =
      .error .tooShort :=
  ⟨(errorHandlingAsymmetry [goodGroup] [goodGroup] badTsGroup).1 .notDecimal rfl,
   (errorHandlingAsymmetry [goodGroup] [goodGroup] badFloatGroup).2 .tooShort _ _
     rfl rfl (by decide) rfl⟩

theorem decToInt_le {s : List Nat} {pos n : Nat} (h : decToInt s pos = .ok n) :
    n ≤ 99 := by
  rw [decToInt] at h
  split at h
  · simp at h
  · rename_i hc
    push_neg at hc
    simp only [Except.ok.injEq] at h
    omega

theorem parseDateTime_inv {hex1 hex2 : List Nat} {r : Record}
    (h : parseDateTimeFromTwoHex hex1 hex2 = .ok r) :
    ∃ YY MM DD hh mm ss,
      decToInt hex1 0 = .ok YY ∧ decToInt hex1 2 = .ok MM ∧
      decToInt hex1 4 = .ok DD ∧ decToInt hex1 6 = .ok hh ∧
      decToInt hex2 0 = .ok mm ∧ decToInt hex2 2 = .ok ss ∧
      1 ≤ MM ∧ MM ≤ 12 ∧ 1 ≤ DD ∧ DD ≤ 31 ∧ hh ≤ 23 ∧ mm ≤ 59 ∧ ss ≤ 59 ∧
      r = { year := 2000 + YY, month := MM, day := DD,
            hour := hh, minute := mm, second := ss
            dateStr := decDigits (2000 + YY) ++ 47 :: pad2 MM ++ 47 :: pad2 DD
            timeStr := pad2 hh ++ 58 :: pad2 mm ++ 58 :: pad2 ss } := by
  rw [parseDateTimeFromTwoHex] at h
  split at h
  · simp at h
  cases hYY : decToInt hex1 0 with
  | error e => rw [hYY] at h; simp at h
  | ok YY =>
  rw [hYY] at h
  cases hMM : decToInt hex1 2 with
  | error e => rw [hMM] at h; simp at h
  | ok MM =>
  rw [hMM] at h
  cases hDD : decToInt hex1 4 with
  | error e => rw [hDD] at h; simp at h
  | ok DD =>
  rw [hDD] at h
  cases hhh : decToInt hex1 6 with
  | error e => rw [hhh] at h; simp at h
  | ok hh =>
  rw [hhh] at h
  cases hmm : decToInt hex2 0 with
  | error e => rw [hmm] at h; simp at h
  | ok mm =>
  rw [hmm] at h
  cases hss : decToInt hex2 2 with
  | error e => rw [hss] at h; simp at h
  | ok ss =>
  rw [hss] at h
  simp only [] at h
  split at h; · simp at h
  split at h; · simp at h
  split at h; · simp at h
  split at h; · simp at h
  split at h; · simp at h
  split at h; · simp at h
  rename_i hy hM hD hhr hmi hse
  push_neg at hy hM hD hhr hmi hse
  simp only [Except.ok.injEq] at h
  exact ⟨YY, MM, DD, hh, mm, ss, rfl, rfl, rfl, rfl, rfl, rfl,
    by omega, by omega, by omega, by omega, by omega, by omega, by omega, h.symm⟩

theorem decDigits_year : ∀ YY < 100, decDigits (2000 + YY) = digit4 (2000 + YY) := by
  decide

theorem pad2_eq_digit2 : ∀ n < 100, pad2 n = digit2 n := by
  decide

theorem parseFloats_length {l : List (List Nat)} {vs : List Nat}
    (h : parseFloats l = .ok vs) : vs.length = l.length := by
  induction l generalizing vs with
  | nil =>
    rw [parseFloats] at h
    simp only [Except.ok.injEq] at h
    simp [← h]
  | cons s rest ih =>
    rw [parseFloats] at h
    cases hv : parseHexAsFloatLittleEndian s with
    | error e => rw [hv] at h; simp at h
    | ok v =>
      rw [hv] at h
      cases hrest : parseFloats rest with
      | error e => rw [hrest] at h; simp at h
      | ok vs' =>
        rw [hrest] at h
        simp only [Except.ok.injEq] at h
        rw [← h]
        simp [ih hrest]

theorem decodeGroup_valid {g : List (List Nat)} {r : Record}
    (hglen : g.length = 16) (h : decodeGroup g = .ok (some r)) :
    validRecord r := by
  rw [decodeGroup] at h
  split at h
  · simp at h
  split at h
  · simp at h
  rename_i rec hts
  split at h
  · simp at h
  rename_i hlen15
  split at h
  · simp at h
  rename_i fvals hfl
  simp only [Except.ok.injEq, Option.some.injEq] at h
  obtain ⟨YY, MM, DD, hh, mm, ss, hYY, hMM, hDD, hhh, hmm, hss,
    hM1, hM2, hD1, hD2, hh23, hm59, hs59, hrec⟩ := parseDateTime_inv hts
  have hYY99 : YY ≤ 99 := decToInt_le hYY
  have hfl13 : fvals.length = 13 := by
    have hl := parseFloats_length hfl
    simp only [List.length_drop, hglen] at hl
    omega
  subst hrec
  simp only [Except.ok.injEq, Option.some.injEq] at h
  subst h
  refine ⟨?_, ?_, ?_, ?_, ?_, ?_, ?_, ?_, ?_, ?_, ?_, ?_⟩
  · show 2000 ≤ 2000 + YY
    omega
  · show 2000 + YY ≤ 2100
    omega
  · exact hM1
  · exact hM2
  · exact hD1
  · exact hD2
  · exact hh23
  · exact hm59
  · exact hs59
  · exact hfl13
  · show decDigits (2000 + YY) ++ 47 :: pad2 MM ++ 47 :: pad2 DD =
      digit4 (2000 + YY) ++ 47 :: digit2 MM ++ 47 :: digit2 DD
    rw [decDigits_year YY (by omega), pad2_eq_digit2 MM (by omega),
      pad2_eq_digit2 DD (by omega)]
  · show pad2 hh ++ 58 :: pad2 mm ++ 58 :: pad2 ss =
      digit2 hh ++ 58 :: digit2 mm ++ 58 :: digit2 ss
    rw [pad2_eq_digit2 hh (by omega), pad2_eq_digit2 mm (by omega),
      pad2_eq_digit2 ss (by omega)]

theorem decodeGroups_mem {gs : List (List (List Nat))} {rs : List Record}
    (h : decodeGroups gs = .ok rs) :
    ∀ r ∈ rs, ∃ g ∈ gs, decodeGroup g = .ok (some r) := by
  induction gs generalizing rs with
  | nil =>
    rw [decodeGroups] at h
    simp only [Except.ok.injEq] at h
    subst h
    intro r hr
    simp at hr
  | cons g gs ih =>
    rw [decodeGroups] at h
    split at h
    · simp at h
    rename_i r? hg
    split at h
    · simp at h
    rename_i rest hrest
    split at h
    · rename_i r0
      simp only [Except.ok.injEq] at h
      subst h
      intro r hr
      rcases List.mem_cons.mp hr with rfl | hr
      · exact ⟨g, by simp, hg⟩
      · obtain ⟨g', hg', hd⟩ := ih hrest r hr
        exact ⟨g', by simp [hg'], hd⟩
    · simp only [Except.ok.injEq] at h
      subst h
      intro r hr
      obtain ⟨g', hg', hd⟩ := ih hrest r hr
      exact ⟨g', by simp [hg'], hd⟩

theorem parseLoop_mem (fuel : Nat) (first : Bool) (data : List Nat)
    {rs : List Record} (h : parseLoop fuel first data = .ok rs) :
    ∀ r ∈ rs, ∃ g, g.length = 16 ∧ decodeGroup g = .ok (some r) := by
  induction fuel generalizing first data rs with
  | zero =>
    rw [parseLoop] at h
    simp only [Except.ok.injEq] at h
    subst h
    intro r hr
    simp at hr
  | succ fuel ih =>
    rw [parseLoop] at h
    by_cases hlen : data.length < (if first = true then 132 else 128)
    · rw [if_pos hlen] at h
      simp only [Except.ok.injEq] at h
      subst h
      intro r hr
      simp at hr
    rw [if_neg hlen] at h
    split at h
    · simp at h
    rename_i recs hrecs
    split at h
    · simp at h
    rename_i rest hrest
    simp only [Except.ok.injEq] at h
    subst h
    intro r hr
    rcases List.mem_append.mp hr with hr | hr
    · obtain ⟨g, hgmem, hgd⟩ := decodeGroups_mem hrecs r hr
      exact ⟨g, length_of_mem_chunks16 g hgmem, hgd⟩
    · exact ih false _ hrest r hr

/-- C4: every record returned by decode satisfies the construction
invariant: year in [2000,2100], month in [1,12], day in [1,31], hour ≤ 23,
minute/second ≤ 59, exactly 13 float values, and `dateStr`/`timeStr` are
the zero-padded "YYYY/MM/DD" and "hh:mm:ss" renderings of the numeric
fields; no partially decoded frame contributes a record. -/
theorem decodeInvariant (data : List Nat) (recs : List Record)
    (h : parseBinFile data = .ok recs) : ∀ r ∈ recs, validRecord r := by
  intro r hr
  obtain ⟨g, hg16, hgd⟩ := parseLoop_mem data.length true (data.drop 192) h r hr
  exact decodeGroup_valid hg16 hgd

set_option maxRecDepth 8000 in
/-- Witness for C4 on the crafted file `fileBytes`, which decodes to
exactly `[cRec]`. -/
theorem decodeInvariant_witness : validRecord cRec :=
  decodeInvariant fileBytes [cRec] rfl cRec (by simp)

theorem digitVal?_digit (x : Nat) : digitVal? (48 + x % 10) = some (x % 10) := by
  rw [digitVal?, if_pos (by omega : 48 ≤ 48 + x % 10 ∧ 48 + x % 10 ≤ 57)]
  congr 1
  omega

/-- C8: whenever the timestamp decoder accepts its two 8-character inputs
and produces a record, re-parsing the formatted `dateStr` ("YYYY/MM/DD")
and `timeStr` ("hh:mm:ss") recovers exactly the record's numeric year,
month, day, hour, minute and second. -/
theorem timestampRoundTrip (hex1 hex2 : List Nat) (r : Record)
    (h : parseDateTimeFromTwoHex hex1 hex2 = .ok r) :
    reparseDate r.dateStr = some (r.year, r.month, r.day) ∧
      reparseTime r.timeStr = some (r.hour, r.minute, r.second) := by
  obtain ⟨YY, MM, DD, hh, mm, ss, hYY, hMM, hDD, hhh, hmm, hss,
    hM1, hM2, hD1, hD2, hh23, hm59, hs59, hrec⟩ := parseDateTime_inv h
  have hYY99 := decToInt_le hYY
  subst hrec
  constructor
  · show reparseDate (decDigits (2000 + YY) ++ 47 :: pad2 MM ++ 47 :: pad2 DD) =
      some (2000 + YY, MM, DD)
    rw [decDigits_year YY (by omega), pad2_eq_digit2 MM (by omega),
      pad2_eq_digit2 DD (by omega)]
    simp only [digit4, digit2, List.cons_append, List.nil_append]
    simp only [reparseDate, digitVal?_digit]
    norm_num
    exact ⟨by omega, by omega, by omega⟩
  · show reparseTime (pad2 hh ++ 58 :: pad2 mm ++ 58 :: pad2 ss) =
      some (hh, mm, ss)
    rw [pad2_eq_digit2 hh (by omega), pad2_eq_digit2 mm (by omega),
      pad2_eq_digit2 ss (by omega)]
    simp only [digit2, List.cons_append, List.nil_append]
    simp only [reparseTime, digitVal?_digit]
    norm_num
    exact ⟨by omega, by omega, by omega⟩

theorem swapList_spec (l : List Nat) (h : l.length = 13) :
    ((l.set 11 (l.getD 12 0)).set 12 (l.getD 11 0)).getD 11 0 = l.getD 12 0 ∧
    ((l.set 11 (l.getD 12 0)).set 12 (l.getD 11 0)).getD 12 0 = l.getD 11 0 ∧
    (∀ i, i ≠ 11 → i ≠ 12 →
      ((l.set 11 (l.getD 12 0)).set 12 (l.getD 11 0)).getD i 0 = l.getD i 0) ∧
    ((l.set 11 (l.getD 12 0)).set 12 (l.getD 11 0)).length = 13 := by
  rcases l with _ | ⟨f0, l⟩; · simp at h
  rcases l with _ | ⟨f1, l⟩; · simp at h
  rcases l with _ | ⟨f2, l⟩; · simp at h
  rcases l with _ | ⟨f3, l⟩; · simp at h
  rcases l with _ | ⟨f4, l⟩; · simp at h
  rcases l with _ | ⟨f5, l⟩; · simp at h
  rcases l with _ | ⟨f6, l⟩; · simp at h
  rcases l with _ | ⟨f7, l⟩; · simp at h
  rcases l with _ | ⟨f8, l⟩; · simp at h
  rcases l with _ | ⟨f9, l⟩; · simp at h
  rcases l with _ | ⟨f10, l⟩; · simp at h
  rcases l with _ | ⟨f11, l⟩; · simp at h
  rcases l with _ | ⟨f12, l⟩; · simp at h
  rcases l with _ | ⟨f13, l⟩
  · refine ⟨rfl, rfl, ?_, rfl⟩
    intro i h11 h12
    by_cases hi : i < 13
    · interval_cases i <;> simp_all
    · rw [List.getD_eq_default _ _ (by simp; omega),
        List.getD_eq_default _ _ (by simp; omega)]
  · simp at h

/-- C9: for each record surviving sort+dedup, the serializer emits
`swapTail` of it; when the record has exactly 13 float values the emitted
row's 0-indexed positions 11 and 12 hold the original values 12 and 11
respectively (all other positions unchanged), and a record whose value
count differs from 13 is rendered without any swap. -/
theorem serializerSwap (rows : List Record) (r : Record)
    (hmem : r ∈ uniqueRows (sortRecs rows)) :
    swapTail r ∈ csvRecords rows ∧
    (r.floatValues.length = 13 →
      (swapTail r).floatValues.getD 11 0 = r.floatValues.getD 12 0 ∧
      (swapTail r).floatValues.getD 12 0 = r.floatValues.getD 11 0 ∧
      (∀ i, i ≠ 11 → i ≠ 12 →
        (swapTail r).floatValues.getD i 0 = r.floatValues.getD i 0) ∧
      (swapTail r).floatValues.length = 13) ∧
    (r.floatValues.length ≠ 13 → swapTail r = r) := by
  refine ⟨List.mem_map_of_mem swapTail hmem, ?_, ?_⟩
  · intro h13
    have hs : (swapTail r).floatValues =
        (r.floatValues.set 11 (r.floatValues.getD 12 0)).set 12
          (r.floatValues.getD 11 0) := by
      rw [swapTail, if_pos h13]
    rw [hs]
    exact swapList_spec r.floatValues h13
  · intro h13
    rw [swapTail, if_neg h13]

theorem recLt_false_iff (a b : Record) : recLt a b = false ↔ tupleLe b a := by
  simp only [recLt, tupleLe]
  split_ifs <;> simp_all <;> omega

theorem recLt_true_iff (a b : Record) :
    recLt a b = true ↔ (tupleLe a b ∧ ¬ tupleLe b a) := by
  simp only [recLt, tupleLe]
  split_ifs <;> simp_all <;> omega

theorem tupleLe_trans {a b c : Record} (h1 : tupleLe a b) (h2 : tupleLe b c) :
    tupleLe a c := by
  simp only [tupleLe] at *
  omega

theorem sameKey_true_iff (a b : Record) :
    sameKey a b = true ↔ (a.year = b.year ∧ a.month = b.month ∧ a.day = b.day ∧
      a.hour = b.hour ∧ a.minute = b.minute ∧ a.second = b.second) := by
  simp [sameKey]
  tauto

theorem sameKey_of_le_le {a b : Record} (h1 : tupleLe a b) (h2 : tupleLe b a) :
    sameKey a b = true := by
  rw [sameKey_true_iff]
  simp only [tupleLe] at h1 h2
  omega

theorem tupleLe_of_sameKey {a b : Record} (h : sameKey a b = true) : tupleLe a b := by
  rw [sameKey_true_iff] at h
  simp only [tupleLe]
  omega

theorem tupleLe_congr_right {a b c : Record} (h : tupleLe a b)
    (hk : sameKey b c = true) : tupleLe a c := by
  rw [sameKey_true_iff] at hk
  simp only [tupleLe] at *
  omega

theorem sameKey_trans {a b c : Record} (h1 : sameKey a b = true)
    (h2 : sameKey b c = true) : sameKey a c = true := by
  rw [sameKey_true_iff] at *
  omega

theorem sameKey_symm {a b : Record} (h : sameKey a b = true) : sameKey b a = true := by
  rw [sameKey_true_iff] at *
  omega

theorem sameKey_refl (a : Record) : sameKey a a = true := by
  rw [sameKey_true_iff]
  omega

theorem mem_insertRec {x y : Record} {l : List Record} :
    y ∈ insertRec x l ↔ y = x ∨ y ∈ l := by
  induction l with
  | nil => simp [insertRec]
  | cons z zs ih =>
    rw [insertRec]
    split
    · simp [List.mem_cons]
    · simp only [List.mem_cons, ih]
      tauto

theorem countP_insertRec (p : Record → Bool) (x : Record) (l : List Record) :
    (insertRec x l).countP p = l.countP p + if p x then 1 else 0 := by
  induction l with
  | nil => simp [insertRec, List.countP_cons]
  | cons z zs ih =>
    rw [insertRec]
    split
    · simp only [List.countP_cons]
    · simp only [List.countP_cons, ih]
      omega


theorem countP_sortRecs (p : Record → Bool) (l : List Record) :
    (sortRecs l).countP p = l.countP p := by
  induction l with
  | nil => rfl
  | cons x xs ih =>
    rw [sortRecs, countP_insertRec, ih, List.countP_cons]

theorem pairwise_insertRec {x : Record} {l : List Record}
    (hl : l.Pairwise tupleLe) : (insertRec x l).Pairwise tupleLe := by
  induction l with
  | nil => simp [insertRec]
  | cons y ys ih =>
    rw [insertRec]
    rw [List.pairwise_cons] at hl
    obtain ⟨hy, hys⟩ := hl
    split
    · rename_i hxy
      rw [recLt_true_iff] at hxy
      rw [List.pairwise_cons]
      refine ⟨?_, List.pairwise_cons.mpr ⟨hy, hys⟩⟩
      intro z hz
      rcases List.mem_cons.mp hz with rfl | hz
      · exact hxy.1
      · exact tupleLe_trans hxy.1 (hy z hz)
    · rename_i hxy
      rw [Bool.not_eq_true] at hxy
      rw [recLt_false_iff] at hxy
      rw [List.pairwise_cons]
      refine ⟨?_, ih hys⟩
      intro z hz
      rcases mem_insertRec.mp hz with rfl | hz
      · exact hxy
      · exact hy z hz

theorem pairwise_sortRecs (l : List Record) : (sortRecs l).Pairwise tupleLe := by
  induction l with
  | nil => simp [sortRecs]
  | cons x xs ih =>
    rw [sortRecs]
    exact pairwise_insertRec ih

theorem dedupLoop_sublist (last : Record) (l : List Record) :
    (dedupLoop last l).Sublist l := by
  induction l generalizing last with
  | nil => simp [dedupLoop]
  | cons r rs ih =>
    rw [dedupLoop]
    split
    · exact List.Sublist.cons r (ih last)
    · exact List.Sublist.cons₂ r (ih r)

theorem dedupLoop_countP_zero {last r0 : Record} {l : List Record}
    (hs : (last :: l).Pairwise tupleLe) (hk : sameKey last r0 = true) :
    (dedupLoop last l).countP (fun x => sameKey x r0) = 0 := by
  induction l with
  | nil => rfl
  | cons r rs ih =>
    rw [List.pairwise_cons] at hs
    obtain ⟨hlast, hrs⟩ := hs
    rw [dedupLoop]
    split
    · rename_i hrl
      apply ih
      rw [List.pairwise_cons]
      exact ⟨fun z hz => hlast z (by simp [hz]), (List.pairwise_cons.mp hrs).2⟩
    · rename_i hrl
      have hpr : sameKey r r0 = false := by
        by_contra hc
        rw [Bool.not_eq_false] at hc
        exact hrl (sameKey_trans hc (sameKey_symm hk))
      have hz : ∀ x ∈ dedupLoop r rs, sameKey x r0 = false := by
        intro x hx
        have hxrs : x ∈ rs := (dedupLoop_sublist r rs).subset hx
        by_contra hc
        rw [Bool.not_eq_false] at hc
        have h1 : tupleLe last r := hlast r (by simp)
        have h2 : tupleLe r x := (List.pairwise_cons.mp hrs).1 x hxrs
        have h3 : tupleLe r last :=
          tupleLe_congr_right h2 (sameKey_trans hc (sameKey_symm hk))
        exact hrl (sameKey_symm (sameKey_of_le_le h1 h3))
      rw [List.countP_cons]
      have hrest : (dedupLoop r rs).countP (fun x => sameKey x r0) = 0 :=
        List.countP_eq_zero.mpr (fun a ha => by simp [hz a ha])
      rw [hrest, hpr]
      simp

theorem dedupLoop_countP_find {r0 : Record} {l : List Record} :
    ∀ {last : Record}, (last :: l).Pairwise tupleLe → sameKey last r0 = false →
    (dedupLoop last l).countP (fun x => sameKey x r0) =
      min 1 (l.countP (fun x => sameKey x r0)) ∧
    (dedupLoop last l).find? (fun x => sameKey x r0) =
      l.find? (fun x => sameKey x r0) := by
  induction l with
  | nil => intro last _ _; simp [dedupLoop]
  | cons r rs ih =>
    intro last hs hk
    rw [List.pairwise_cons] at hs
    obtain ⟨hlast, hrs⟩ := hs
    rw [dedupLoop]
    split
    · rename_i hrl
      have hpr : sameKey r r0 = false := by
        by_contra hc
        rw [Bool.not_eq_false] at hc
        exact absurd (sameKey_trans (sameKey_symm hrl) hc) (by simp [hk])
      have hlrs : (last :: rs).Pairwise tupleLe := by
        rw [List.pairwise_cons]
        exact ⟨fun z hz => hlast z (by simp [hz]), (List.pairwise_cons.mp hrs).2⟩
      obtain ⟨ihc, ihf⟩ := ih hlrs hk
      constructor
      · rw [ihc, List.countP_cons, hpr]
        simp
      · rw [ihf,
          @List.find?_cons_of_neg _ (fun x => sameKey x r0) r rs (by simp [hpr])]
    · rename_i hrl
      by_cases hpr : sameKey r r0 = true
      · have hzero := @dedupLoop_countP_zero r r0 rs hrs hpr
        constructor
        · rw [List.countP_cons, List.countP_cons, hzero, hpr]
          have h1 : (if true = true then 1 else 0) = 1 := rfl
          rw [h1]
          omega
        · rw [@List.find?_cons_of_pos _ (fun x => sameKey x r0) r (dedupLoop r rs) hpr,
            @List.find?_cons_of_pos _ (fun x => sameKey x r0) r rs hpr]
      · have hprf : sameKey r r0 = false := by simpa using hpr
        obtain ⟨ihc, ihf⟩ := ih hrs hprf
        constructor
        · rw [List.countP_cons, List.countP_cons, ihc, hprf]
          simp
        · rw [@List.find?_cons_of_neg _ (fun x => sameKey x r0) r (dedupLoop r rs)
              (by simp [hprf]),
            @List.find?_cons_of_neg _ (fun x => sameKey x r0) r rs (by simp [hprf]),
            ihf]

theorem uniqueRows_countP_find {r0 : Record} {s : List Record}
    (hs : s.Pairwise tupleLe) (hmem : ∃ x ∈ s, sameKey x r0 = true) :
    (uniqueRows s).countP (fun x => sameKey x r0) = 1 ∧
    (uniqueRows s).find? (fun x => sameKey x r0) =
      s.find? (fun x => sameKey x r0) := by
  cases s with
  | nil => simp at hmem
  | cons first rest =>
    rw [uniqueRows]
    by_cases hpf : sameKey first r0 = true
    · have hzero := @dedupLoop_countP_zero first r0 rest hs hpf
      constructor
      · rw [List.countP_cons, hzero, hpf]
        norm_num
      · rw [@List.find?_cons_of_pos _ (fun x => sameKey x r0) first
            (dedupLoop first rest) hpf,
          @List.find?_cons_of_pos _ (fun x => sameKey x r0) first rest hpf]
    · have hpff : sameKey first r0 = false := by simpa using hpf
      obtain ⟨ihc, ihf⟩ := dedupLoop_countP_find hs hpff
      have hcnt : 0 < rest.countP (fun x => sameKey x r0) := by
        rw [List.countP_pos_iff]
        obtain ⟨x, hx, hxk⟩ := hmem
        rcases List.mem_cons.mp hx with rfl | hx
        · exact absurd hxk hpf
        · exact ⟨x, hx, hxk⟩
      constructor
      · rw [List.countP_cons, ihc, hpff]
        simp only [Bool.false_eq_true, if_false, Nat.add_zero]
        omega
      · rw [@List.find?_cons_of_neg _ (fun x => sameKey x r0) first
            (dedupLoop first rest) (by simp [hpff]),
          @List.find?_cons_of_neg _ (fun x => sameKey x r0) first rest (by simp [hpff]),
          ihf]

theorem swapTail_keyFields (r : Record) :
    (swapTail r).year = r.year ∧ (swapTail r).month = r.month ∧
    (swapTail r).day = r.day ∧ (swapTail r).hour = r.hour ∧
    (swapTail r).minute = r.minute ∧ (swapTail r).second = r.second := by
  rw [swapTail]
  split <;> simp

theorem sameKey_swapTail (x r0 : Record) :
    sameKey (swapTail x) r0 = sameKey x r0 := by
  obtain ⟨h1, h2, h3, h4, h5, h6⟩ := swapTail_keyFields x
  simp [sameKey, h1, h2, h3, h4, h5, h6]

theorem tupleLe_swapTail {a b : Record} (h : tupleLe a b) :
    tupleLe (swapTail a) (swapTail b) := by
  obtain ⟨h1, h2, h3, h4, h5, h6⟩ := swapTail_keyFields a
  obtain ⟨g1, g2, g3, g4, g5, g6⟩ := swapTail_keyFields b
  simp only [tupleLe, h1, h2, h3, h4, h5, h6, g1, g2, g3, g4, g5, g6]
  exact h

/-- C5: the serializer's data rows are non-decreasing in the timestamp
6-tuple, and for every timestamp occurring in the input there is exactly
one output row — the (swapped rendering of the) record found first in the
sorted sequence among those sharing that timestamp; all later records with
an identical timestamp are dropped. -/
theorem serializerSortDedup (rows : List Record) (r0 : Record) (hmem : r0 ∈ rows) :
    (csvRecords rows).Pairwise tupleLe ∧
    (csvRecords rows).countP (fun x => sameKey x r0) = 1 ∧
    ∃ r1, (sortRecs rows).find? (fun x => sameKey x r0) = some r1 ∧
      (csvRecords rows).find? (fun x => sameKey x r0) = some (swapTail r1) := by
  have hsorted := pairwise_sortRecs rows
  have hmem' : ∃ x ∈ sortRecs rows, sameKey x r0 = true := by
    have hpos : 0 < (sortRecs rows).countP (fun x => sameKey x r0) := by
      rw [countP_sortRecs, List.countP_pos_iff]
      exact ⟨r0, hmem, sameKey_refl r0⟩
    rw [List.countP_pos_iff] at hpos
    exact hpos
  obtain ⟨hcnt, hfind⟩ := uniqueRows_countP_find hsorted hmem'
  have hsub : (uniqueRows (sortRecs rows)).Sublist (sortRecs rows) := by
    cases hsrt : sortRecs rows with
    | nil => rw [uniqueRows]
    | cons f rest => rw [uniqueRows]; exact List.Sublist.cons₂ f (dedupLoop_sublist f rest)
  have hpw : (uniqueRows (sortRecs rows)).Pairwise tupleLe :=
    List.Pairwise.sublist hsub hsorted
  have hcomp : ((fun x => sameKey x r0) ∘ swapTail) = fun x => sameKey x r0 :=
    funext (fun x => sameKey_swapTail x r0)
  refine ⟨?_, ?_, ?_⟩
  · rw [csvRecords, List.pairwise_map]
    exact hpw.imp (fun h => tupleLe_swapTail h)
  · rw [csvRecords, List.countP_map, hcomp, hcnt]
  · have hsome : ∃ r1, (sortRecs rows).find? (fun x => sameKey x r0) = some r1 :=
      Option.isSome_iff_exists.mp (List.find?_isSome.mpr hmem')
    obtain ⟨r1, hr1⟩ := hsome
    refine ⟨r1, hr1, ?_⟩
    rw [csvRecords, List.find?_map, hcomp, hfind, hr1]
    rfl

/-- Witness for C8 at the concrete timestamp words of `goodGroup`. -/
theorem timestampRoundTrip_witness :
    reparseDate cRecTs.dateStr = some (cRecTs.year, cRecTs.month, cRecTs.day) ∧
      reparseTime cRecTs.timeStr = some (cRecTs.hour, cRecTs.minute, cRecTs.second) :=
  timestampRoundTrip (toHex8 tsWordGood1) (toHex8 tsWordGood2) cRecTs rfl

/-- Witness for C9 on a record with float values `[0, …, 12]`. -/
theorem serializerSwap_witness :
    swapTail cRecSwap ∈ csvRecords [cRecSwap] ∧
    (swapTail cRecSwap).floatValues.getD 11 0 = 12 ∧
    (swapTail cRecSwap).floatValues.getD 12 0 = 11 := by
  obtain ⟨h1, h2, h3⟩ := serializerSwap [cRecSwap] cRecSwap (by decide)
  refine ⟨h1, ?_, ?_⟩
  · rw [(h2 rfl).1]
    decide
  · rw [(h2 rfl).2.1]
    decide

/-- Witness for C5 on two records sharing a timestamp. -/
theorem serializerSortDedup_witness :
    (csvRecords [cDupB, cDupA]).Pairwise tupleLe ∧
    (csvRecords [cDupB, cDupA]).countP (fun x => sameKey x cDupA) = 1 ∧
    ∃ r1, (sortRecs [cDupB, cDupA]).find? (fun x => sameKey x cDupA) = some r1 ∧
      (csvRecords [cDupB, cDupA]).find? (fun x => sameKey x cDupA) =
        some (swapTail r1) :=
  serializerSortDedup [cDupB, cDupA] cDupA (by decide)
